import Mathlib

/-!
Verification of the markdown conversion core of `web2md` (`src/lib.rs`).

The development shallowly embeds the conversion engine: the parsed document
tree is the inductive `Node`, the mutable `MarkdownFormatter` is the record
`Formatter`, and the recursive tree walk `process_node` / `process_children`
together with the list-item loop of `process_list` are a mutual structural
recursion.  Strings are embedded as `List Char`; Rust's `u8` list counter is
embedded as `Nat` reduced modulo `256` at each increment (release-profile
wrapping arithmetic).  The record carries one ghost field `ok` that starts
`true` and is set to `false` exactly when a Rust operation that could panic
would be reached outside its defined domain: the `unwrap` of the heading
level parse, the `usize` subtraction restoring `indent_level` at list exit,
and the `usize` subtraction computing cell padding in `format_table_row`.
All other operations of the source are total.
-/

/-- The set accepted by Rust `char::is_whitespace` and by the `regex` crate's
Unicode `\s` class: the Unicode `White_Space` code points. -/
def is_ws (c : Char) : Bool :=
  let n := c.toNat
  (9 ≤ n && n ≤ 13) || n == 32 || n == 133 || n == 160 || n == 5760 ||
  (8192 ≤ n && n ≤ 8202) || n == 8232 || n == 8233 || n == 8239 || n == 8287 || n == 12288

/-- Rust `str::trim_start`: drop leading whitespace. -/
def trimL (l : List Char) : List Char := l.dropWhile is_ws

/-- Rust `str::trim_end`: drop trailing whitespace. -/
def trimR (l : List Char) : List Char := (trimL l.reverse).reverse

/-- Rust `str::trim`. -/
def trim (l : List Char) : List Char := trimR (trimL l)

/-- One left-to-right scan replacing every maximal run of whitespace by `rep`:
the behaviour of `WHITESPACE_REGEX.replace_all(text, rep)` for the regex
`\s+`.  The flag records whether the scan is currently inside a run. -/
def collapse_runs (rep : List Char) : List Char → Bool → List Char
  | [], _ => []
  | c :: cs, inRun =>
    if is_ws c then
      if inRun then collapse_runs rep cs true
      else rep ++ collapse_runs rep cs true
    else c :: collapse_runs rep cs false

/-- `WHITESPACE_REGEX.replace_all(l, rep)` with `WHITESPACE_REGEX = \s+`. -/
def replace_ws_runs (rep : List Char) (l : List Char) : List Char :=
  collapse_runs rep l false

/-- Rust `str::split_whitespace`, with an accumulator holding the reversed
current word. -/
def split_whitespace_aux : List Char → List Char → List (List Char)
  | acc, [] => if acc.isEmpty then [] else [acc.reverse]
  | acc, c :: cs =>
    if is_ws c then
      if acc.isEmpty then split_whitespace_aux [] cs
      else acc.reverse :: split_whitespace_aux [] cs
    else split_whitespace_aux (c :: acc) cs

/-- Rust `str::split_whitespace`. -/
def split_whitespace (l : List Char) : List (List Char) :=
  split_whitespace_aux [] l

/-- `Vec::join(sep)` on character lists. -/
def join_sep (sep : List Char) : List (List Char) → List Char
  | [] => []
  | [w] => w
  | w :: ws => w ++ sep ++ join_sep sep ws

/-- Rust `str::starts_with` on character lists. -/
def leads_with : List Char → List Char → Bool
  | [], _ => true
  | _ :: _, [] => false
  | p :: ps, c :: cs => p == c && leads_with ps cs

/-- Number of adjacent newline pairs in a buffer (a maximal run of `k ≥ 1`
newlines contributes `k - 1`; an empty output line is one such pair). -/
def nl_pairs : List Char → Nat
  | [] => 0
  | [_] => 0
  | a :: b :: rest => (if a = '\n' ∧ b = '\n' then 1 else 0) + nl_pairs (b :: rest)

/-- Whether the buffer contains three consecutive newlines somewhere, i.e.
more than one consecutive blank line. -/
def has_triple_newline : List Char → Bool
  | '\n' :: '\n' :: '\n' :: _ => true
  | _ :: rest => has_triple_newline rest
  | [] => false

/-- Model of `str::parse::<usize>` restricted to unsigned decimal digits
(the only inputs it receives here are the suffixes of `h1`..`h6`). -/
def digit_val (c : Char) : Option Nat :=
  if c.isDigit then some (c.toNat - 48) else none

/-- `str::parse::<usize>` on a digit string; `none` models the `Err` case
whose `unwrap` would panic. -/
def parse_usize (s : List Char) : Option Nat :=
  if s.isEmpty then none
  else s.foldl (fun acc c =>
    match acc, digit_val c with
    | some a, some d => some (a * 10 + d)
    | _, _ => none) (some 0)

/-- `CleaningRules` from the request configuration. -/
structure CleaningRules where
  remove_scripts : Bool
  remove_styles : Bool
  remove_comments : Bool
  preserve_line_breaks : Bool
deriving DecidableEq, Repr

/-- `ConvertConfig`: the formatting configuration.  `max_heading_level` is a
`u8` in the source; it is carried as a `Nat` here and only ever compared. -/
structure ConvertConfig where
  include_links : Bool
  clean_whitespace : Bool
  cleaning_rules : CleaningRules
  preserve_headings : Bool
  include_metadata : Bool
  max_heading_level : Nat
deriving DecidableEq, Repr

/-- The parsed document tree (`markup5ever_rcdom::NodeData`): element, text,
comment, processing instruction, doctype and document nodes. -/
inductive Node where
  | element (name : String) (attrs : List (String × String)) (children : List Node)
  | text (contents : String)
  | comment (contents : String)
  | pinstr
  | doctype
  | document (children : List Node)

/-- `ListType`: the active list descriptor.  The ordered counter is a `u8`
in the source. -/
inductive ListType where
  | ordered (start : Nat)
  | unordered
deriving DecidableEq, Repr

/-- `MetadataHandler`: accumulated front-matter fields. -/
structure MetadataHandler where
  title : Option String
  author : Option String
  date : Option String
  description : Option String
  tags : List String
deriving DecidableEq, Repr

def MetadataHandler.new : MetadataHandler :=
  { title := none, author := none, date := none, description := none, tags := [] }

/-- `MetadataHandler::format_metadata`. -/
def format_metadata (m : MetadataHandler) : List Char :=
  (match m.title with
   | some t => "# ".data ++ t.data ++ "\n\n".data
   | none => [])
  ++ "---\n".data
  ++ (match m.author with
      | some a => "Author: ".data ++ a.data ++ ['\n']
      | none => [])
  ++ (match m.date with
      | some d => "Date: ".data ++ d.data ++ ['\n']
      | none => [])
  ++ (match m.description with
      | some d => "Description: ".data ++ d.data ++ ['\n']
      | none => [])
  ++ (if m.tags.isEmpty then []
      else "Tags: ".data ++ join_sep ", ".data (m.tags.map String.data) ++ ['\n'])
  ++ "---\n\n".data

/-- `MarkdownFormatter`.  `ok` is the panic-freedom ghost flag described in
the file header; every other field is a field of the source struct. -/
structure Formatter where
  config : ConvertConfig
  content : List Char
  indent_level : Nat
  list_type_stack : List ListType
  in_table : Bool
  table_columns : List (List Char)
  table_rows : List (List (List Char))
  current_row : List (List Char)
  current_cell : List Char
  metadata : MetadataHandler
  in_code_block : Bool
  ok : Bool
deriving DecidableEq

/-- `MarkdownFormatter::new`. -/
def Formatter.new (config : ConvertConfig) : Formatter :=
  { config := config, content := [], indent_level := 0, list_type_stack := [],
    in_table := false, table_columns := [], table_rows := [], current_row := [],
    current_cell := [], metadata := MetadataHandler.new, in_code_block := false,
    ok := true }

/-- First attribute with the given name, as in `attrs.iter().find(..)`. -/
def find_attr (attrs : List (String × String)) (key : String) : Option String :=
  (attrs.find? (fun a => a.1 == key)).map (fun a => a.2)

/-- `MarkdownFormatter::should_skip_node`. -/
def should_skip_node (f : Formatter) (n : Node) : Bool :=
  if !f.config.cleaning_rules.remove_scripts && !f.config.cleaning_rules.remove_styles
     && !f.config.cleaning_rules.remove_comments then false
  else match n with
    | .element name _ _ =>
      (f.config.cleaning_rules.remove_scripts && name == "script") ||
      (f.config.cleaning_rules.remove_styles && name == "style")
    | .comment _ => f.config.cleaning_rules.remove_comments
    | .pinstr => true
    | _ => false

/-- `MarkdownFormatter::clean_text`. -/
def clean_text (f : Formatter) (text : List Char) : List Char :=
  if !f.config.clean_whitespace || f.in_code_block then text
  else
    let cleaned := replace_ws_runs [' '] (trim text)
    if cleaned.all is_ws then [] else cleaned

/-- The `INLINE_TAGS` table. -/
def inline_tag : String → Option (List Char × List Char)
  | "strong" => some ("**".data, "**".data)
  | "b" => some ("**".data, "**".data)
  | "em" => some ("*".data, "*".data)
  | "i" => some ("*".data, "*".data)
  | "code" => some ("`".data, "`".data)
  | "mark" => some ("==".data, "==".data)
  | "del" => some ("~~".data, "~~".data)
  | "ins" => some ("__".data, "__".data)
  | _ => none

/-- Membership in the `BLOCK_TAGS` table. -/
def is_block_tag (name : String) : Bool :=
  name == "p" || name == "div" || name == "article" || name == "section" ||
  name == "table" || name == "tr" || name == "td" || name == "th"

/-- The `"h1" | .. | "h6"` pattern of the dispatch. -/
def is_heading_tag (name : String) : Bool :=
  name == "h1" || name == "h2" || name == "h3" || name == "h4" ||
  name == "h5" || name == "h6"

/-- Append to the output buffer (`content.push_str`). -/
def push_str (f : Formatter) (s : List Char) : Formatter :=
  { f with content := f.content ++ s }

/-- The buffer transformation of `add_newline`: append `'\n'` only when the
buffer does not already end with one. -/
def ensure_newline (s : List Char) : List Char :=
  if s.getLast? = some '\n' then s else s ++ ['\n']

/-- `MarkdownFormatter::add_newline`. -/
def add_newline (f : Formatter) : Formatter :=
  { f with content := ensure_newline f.content }

/-- `MarkdownFormatter::add_double_newline`: two calls to `add_newline`. -/
def add_double_newline (f : Formatter) : Formatter :=
  add_newline (add_newline f)

/-- `MarkdownFormatter::process_image`. -/
def process_image (f : Formatter) (attrs : List (String × String)) : Formatter :=
  let src := find_attr attrs "src"
  let alt := (find_attr attrs "alt").getD ""
  match src with
  | some url =>
    add_newline (push_str (add_newline f) ("![".data ++ alt.data ++ "](".data ++ url.data ++ [')']))
  | none => f

/-- `MarkdownFormatter::extract_metadata`. -/
def extract_metadata (f : Formatter) (attrs : List (String × String)) : Formatter :=
  match find_attr attrs "property" with
  | none => f
  | some p =>
    match find_attr attrs "content" with
    | none => f
    | some c =>
      if p = "og:title" then { f with metadata := { f.metadata with title := some c } }
      else if p = "og:description" then { f with metadata := { f.metadata with description := some c } }
      else if p = "article:author" then { f with metadata := { f.metadata with author := some c } }
      else if p = "article:published_time" then { f with metadata := { f.metadata with date := some c } }
      else if p = "article:tag" then { f with metadata := { f.metadata with tags := f.metadata.tags ++ [c] } }
      else f

/-- The tail of `process_link` after the children were rendered into the
cleared buffer: restore the old buffer and emit the link. -/
def link_finish (old : List Char) (href : Option String) (g : Formatter) : Formatter :=
  let t := trim g.content
  let g2 := { g with content := old }
  match href with
  | some url =>
    push_str g2
      (if t ≠ [] ∧ t ≠ url.data
       then '[' :: t ++ ']' :: '(' :: url.data ++ [')']
       else '<' :: url.data ++ ['>'])
  | none => g2

/-- The head of the `pre` arm: set the code-block flag, open the fence,
emit the `language-` class token remainder, end the fence line. -/
def pre_start (f : Formatter) (attrs : List (String × String)) : Formatter :=
  let f1 := push_str (add_double_newline { f with in_code_block := true }) "```".data
  let f2 :=
    match find_attr attrs "class" with
    | some cls =>
      match (split_whitespace cls.data).find? (fun t => leads_with "language-".data t) with
      | some tok => push_str f1 (tok.drop 9)
      | none => f1
    | none => f1
  push_str f2 ['\n']

/-- The tail of the `pre` arm: close the fence and clear the code-block flag
unconditionally. -/
def pre_finish (g : Formatter) : Formatter :=
  { add_newline (push_str g "\n```".data) with in_code_block := false }

/-- The head of the `code` arm. -/
def code_start (f : Formatter) : Formatter :=
  push_str { f with in_code_block := true } ['`']

/-- The tail of the `code` arm: restore the saved code-block flag. -/
def code_finish (was : Bool) (g : Formatter) : Formatter :=
  { push_str g ['`'] with in_code_block := was }

/-- Pointwise `widths[i] = widths[i].max(cell.len())` over one table row,
for the indices below the column count (`widths` always has that length). -/
def update_row : List Nat → List (List Char) → List Nat
  | ws, [] => ws
  | [], _ => []
  | w :: ws, c :: cells => Nat.max w c.length :: update_row ws cells

/-- The column-width loop of `format_table`. -/
def compute_col_widths (rows : List (List (List Char))) (col_count : Nat) : List Nat :=
  rows.foldl update_row (List.replicate col_count 0)

/-- The cell loop of `format_table_row`; the ghost flag records that the
padding subtraction `col_widths[i] - cell.len()` does not underflow. -/
def row_cells : Formatter → List (List Char) → List Nat → Formatter
  | f, [], _ => f
  | f, _ :: _, [] => f
  | f, c :: cs, w :: ws =>
    row_cells
      { f with
        content := f.content ++ (' ' :: (c ++ List.replicate (w - c.length) ' ' ++ [' ', '|'])),
        ok := f.ok && decide (c.length ≤ w) }
      cs ws

/-- `MarkdownFormatter::format_table_row`. -/
def format_table_row (f : Formatter) (row : List (List Char)) (widths : List Nat) : Formatter :=
  add_newline (row_cells (push_str f ['|']) row widths)

/-- `MarkdownFormatter::format_table`. -/
def format_table (f : Formatter) : Formatter :=
  match f.table_rows with
  | [] => f
  | r0 :: rest =>
    let widths := compute_col_widths (r0 :: rest) r0.length
    let f1 := format_table_row (add_double_newline f) r0 widths
    let f2 := add_newline
      (widths.foldl (fun g w => push_str g (' ' :: (List.replicate w '-' ++ [' ', '|'])))
        (push_str f1 ['|']))
    add_newline (rest.foldl (fun g r => format_table_row g r widths) f2)

/-- The head of the `table` arm. -/
def table_start (f : Formatter) : Formatter :=
  { f with in_table := true, table_columns := [], table_rows := [] }

/-- The tail of the `table` arm. -/
def table_finish (g : Formatter) : Formatter :=
  { format_table g with in_table := false }

/-- The tail of the `tr` arm: keep the row only if non-empty. -/
def tr_finish (g : Formatter) : Formatter :=
  if g.current_row.isEmpty then g
  else { g with table_rows := g.table_rows ++ [g.current_row] }

/-- The tail of the `th`/`td` arm: push the trimmed cell. -/
def cell_finish (g : Formatter) : Formatter :=
  { g with current_row := g.current_row ++ [trim g.current_cell] }

/-- The head of `process_list`: push the descriptor and widen the indent. -/
def list_start (f : Formatter) (lt : ListType) (step : Nat) : Formatter :=
  { f with list_type_stack := lt :: f.list_type_stack,
           indent_level := f.indent_level + step }

/-- The tail of `process_list`: pop the descriptor, narrow the indent (the
ghost flag records that this `usize` subtraction does not underflow) and
ensure a trailing line break. -/
def list_finish (step : Nat) (g : Formatter) : Formatter :=
  add_newline
    { g with list_type_stack := g.list_type_stack.tail,
             indent_level := g.indent_level - step,
             ok := g.ok && decide (step ≤ g.indent_level) }

/-- The prefix of the heading arm: paragraph boundary, `level` `#` marks and
a space. -/
def header_start (f : Formatter) (level : Nat) : Formatter :=
  push_str (push_str (add_double_newline f) (List.replicate level '#')) [' ']

/-- The per-item marker of `process_list`: `"* "` or `"N. "` for the current
counter value. -/
def item_mark (lt : ListType) (count : Nat) : List Char :=
  match lt with
  | .unordered => "* ".data
  | .ordered _ => (Nat.repr count).data ++ ". ".data

mutual

/-- `MarkdownFormatter::process_node`, with the bodies of `process_header`,
`process_link` and `process_list` inlined around the recursive calls. -/
def process_node (f : Formatter) (n : Node) : Formatter :=
  if should_skip_node f n then f
  else
    match n with
    | .element name attrs cs =>
      if is_heading_tag name then
        if f.config.preserve_headings then
          match parse_usize (name.data.drop 1) with
          | some level =>
            if level % 256 ≤ f.config.max_heading_level then
              add_double_newline (process_children (header_start f level) cs)
            else f
          | none => { f with ok := false }
        else f
      else if name = "a" then
        if f.config.include_links then
          link_finish f.content (find_attr attrs "href")
            (process_children { f with content := [] } cs)
        else process_children f cs
      else if name = "img" then process_image f attrs
      else if name = "meta" ∧ f.config.include_metadata then extract_metadata f attrs
      else if name = "pre" then pre_finish (process_children (pre_start f attrs) cs)
      else if name = "code" then
        code_finish f.in_code_block (process_children (code_start f) cs)
      else if name = "table" then table_finish (process_children (table_start f) cs)
      else if name = "tr" ∧ f.in_table then
        tr_finish (process_children { f with current_row := [] } cs)
      else if (name = "th" ∨ name = "td") ∧ f.in_table then
        cell_finish (process_children { f with current_cell := [] } cs)
      else if name = "ul" then
        list_finish 2 (process_list_items (list_start f .unordered 2) .unordered 1 cs)
      else if name = "ol" then
        list_finish 3 (process_list_items (list_start f (.ordered 1) 3) (.ordered 1) 1 cs)
      else
        match inline_tag name with
        | some marks => push_str (process_children (push_str f marks.1) cs) marks.2
        | none =>
          if is_block_tag name then
            add_double_newline (process_children (add_double_newline f) cs)
          else process_children f cs
    | .text t =>
      let processed := clean_text f t.data
      if f.in_table then { f with current_cell := f.current_cell ++ processed }
      else { f with content := f.content ++ processed }
    | .document cs => process_children f cs
    | .comment _ => f
    | .pinstr => f
    | .doctype => f

/-- `MarkdownFormatter::process_children`. -/
def process_children (f : Formatter) : List Node → Formatter
  | [] => f
  | c :: cs => process_children (process_node f c) cs

/-- The direct-`li`-children loop of `process_list`; `count` is the `u8`
item counter, incremented modulo `2^8`. -/
def process_list_items (f : Formatter) (lt : ListType) (count : Nat) :
    List Node → Formatter
  | [] => f
  | c :: cs =>
    match c with
    | .element cname _ _ =>
      if cname = "li" then
        let g := add_newline
          (process_node (push_str f (List.replicate f.indent_level ' ' ++ item_mark lt count)) c)
        process_list_items g lt ((count + 1) % 256) cs
      else process_list_items f lt count cs
    | _ => process_list_items f lt count cs

end

/-- `MarkdownFormatter::result`. -/
def result (f : Formatter) : List Char :=
  let final_content :=
    (if f.config.include_metadata then format_metadata f.metadata else []) ++ trim f.content
  if f.config.clean_whitespace && !f.config.cleaning_rules.preserve_line_breaks then
    trim (replace_ws_runs "\n\n".data final_content)
  else trim final_content

/-- `html_to_markdown` on an already-parsed tree, paired with the ghost
panic-freedom flag of the final state. -/
def html_to_markdown (config : ConvertConfig) (doc : Node) : List Char × Bool :=
  let f := process_node (Formatter.new config) doc
  (result f, f.ok)

/-- The all-false configuration (`ConvertConfig::default()` with
`max_heading_level` zero). -/
def cfg_default : ConvertConfig :=
  { include_links := false, clean_whitespace := false,
    cleaning_rules := { remove_scripts := false, remove_styles := false,
                        remove_comments := false, preserve_line_breaks := false },
    preserve_headings := false, include_metadata := false, max_heading_level := 0 }


/-- `cfg_default` with whitespace cleaning enabled. -/
def cfg_cw : ConvertConfig :=
  { cfg_default with clean_whitespace := true }

/-- `cfg_default` with link rendering enabled. -/
def cfg_links : ConvertConfig :=
  { cfg_default with include_links := true }

/-- `cfg_default` with headings preserved and capped at level 2. -/
def cfg_h2 : ConvertConfig :=
  { cfg_default with preserve_headings := true, max_heading_level := 2 }

/-- The tag name `"h<d>"` of a heading level `1 ≤ d ≤ 6`. -/
def hname : Nat → String
  | 1 => "h1"
  | 2 => "h2"
  | 3 => "h3"
  | 4 => "h4"
  | 5 => "h5"
  | _ => "h6"

/-- Marker of the item at zero-based position `k` of a list, following the
claim as amended: for an ordered list the printed number is the start value
plus the position, reduced modulo `2^8` (the counter is a `u8`). -/
def spec_mark (lt : ListType) (k : Nat) : List Char :=
  match lt with
  | .unordered => "* ".data
  | .ordered start => (Nat.repr ((start + k) % 256)).data ++ ". ".data

/-- Claim-side rendition of the `process_list` item loop with markers indexed
by item position instead of by a threaded counter. -/
def items_spec (lt : ListType) : Formatter → Nat → List Node → Formatter
  | f, _, [] => f
  | f, k, c :: cs =>
    match c with
    | .element cname _ _ =>
      if cname = "li" then
        items_spec lt
          (add_newline (process_node
            (push_str f (List.replicate f.indent_level ' ' ++ spec_mark lt k)) c)) (k + 1) cs
      else items_spec lt f k cs
    | _ => items_spec lt f k cs

/-- The text emitted for `n` empty `li` items of an ordered list starting at
counter value `c` under indent `ind`, with the `u8` counter wrapping. -/
def wrap_marks (ind : Nat) : Nat → Nat → List Char
  | _, 0 => []
  | c, n + 1 =>
    List.replicate ind ' ' ++ (Nat.repr c).data ++ ". \n".data ++ wrap_marks ind ((c + 1) % 256) n

/-- The same text as the unamended claim predicts it: an unboundedly
incrementing counter. -/
def plain_marks (ind : Nat) : Nat → Nat → List Char
  | _, 0 => []
  | c, n + 1 =>
    List.replicate ind ' ' ++ (Nat.repr c).data ++ ". \n".data ++ plain_marks ind (c + 1) n

/-- Substring test on character lists. -/
def contains_sub (pat : List Char) : List Char → Bool
  | [] => pat.isEmpty
  | c :: cs => leads_with pat (c :: cs) || contains_sub pat cs

/-- One rendered cell of a table row: space, cell, right padding, space, bar. -/
def cell_block (w : Nat) (c : List Char) : List Char :=
  ' ' :: (c ++ List.replicate (w - c.length) ' ' ++ [' ', '|'])

/-- One rendered table row: bar, one block per in-range cell, line break. -/
def table_line (ws : List Nat) (row : List (List Char)) : List Char :=
  '|' :: (row.zip ws).flatMap (fun p => cell_block p.2 p.1) ++ ['\n']

/-- The dash separator row, one dash run per column width. -/
def dash_line (ws : List Nat) : List Char :=
  '|' :: ws.flatMap (fun w => ' ' :: (List.replicate w '-' ++ [' ', '|'])) ++ ['\n']

/-- The maximum cell length observed in column `i` across all rows. -/
def col_max (rows : List (List (List Char))) (i : Nat) : Nat :=
  ((rows.filterMap (fun r => r[i]?)).map List.length).foldl Nat.max 0

/-- The pipe-delimited table exactly as the claim words it: column count from
the first row, widths the per-column maxima, dash separator after the first
row, out-of-range cells dropped. -/
def spec_table : List (List (List Char)) → List Char
  | [] => []
  | r0 :: rest =>
    table_line ((List.range r0.length).map (col_max (r0 :: rest))) r0
      ++ dash_line ((List.range r0.length).map (col_max (r0 :: rest)))
      ++ rest.flatMap (table_line ((List.range r0.length).map (col_max (r0 :: rest))))

/-- `g` agrees with `f` on `indent_level` and on the ghost flag. -/
def FrameEq (f g : Formatter) : Prop :=
  g.indent_level = f.indent_level ∧ g.ok = f.ok

/-- Rows already within the width list never make the padding subtraction of
`format_table_row` underflow. -/
def row_fits : List (List Char) → List Nat → Prop
  | [], _ => True
  | _ :: _, [] => True
  | c :: cs, w :: ws => c.length ≤ w ∧ row_fits cs ws

/-- Pointwise order on equally long width lists. -/
def widths_le : List Nat → List Nat → Prop
  | [], [] => True
  | x :: xs, y :: ys => x ≤ y ∧ widths_le xs ys
  | _, _ => False

/-! ### Frame facts: `indent_level` and the ghost flag through the walk -/

theorem FrameEq.refl {f : Formatter} : FrameEq f f := ⟨rfl, rfl⟩

theorem FrameEq.trans {f g h : Formatter} (h1 : FrameEq f g) (h2 : FrameEq g h) :
    FrameEq f h := ⟨h2.1.trans h1.1, h2.2.trans h1.2⟩

theorem frame_ite {c : Prop} [Decidable c] {f a b : Formatter}
    (ha : c → FrameEq f a) (hb : ¬c → FrameEq f b) : FrameEq f (if c then a else b) := by
  by_cases h : c
  · rw [if_pos h]; exact ha h
  · rw [if_neg h]; exact hb h

theorem widths_le_refl : ∀ ws : List Nat, widths_le ws ws
  | [] => trivial
  | _ :: ws => ⟨le_refl _, widths_le_refl ws⟩

theorem widths_le_trans : ∀ {a b c : List Nat}, widths_le a b → widths_le b c → widths_le a c
  | [], [], [], _, _ => trivial
  | _ :: _, _ :: _, _ :: _, ⟨h1, h2⟩, ⟨h3, h4⟩ => ⟨le_trans h1 h3, widths_le_trans h2 h4⟩
  | [], [], _ :: _, _, h => h.elim
  | _ :: _, [], _, h, _ => h.elim
  | [], _ :: _, _, h, _ => h.elim

theorem widths_le_update : ∀ (ws : List Nat) (r : List (List Char)), widths_le ws (update_row ws r)
  | [], [] => trivial
  | [], _ :: _ => trivial
  | _ :: _, [] => widths_le_refl _
  | _ :: ws, _ :: cells => ⟨Nat.le_max_left _ _, widths_le_update ws cells⟩

theorem row_fits_update : ∀ (ws : List Nat) (r : List (List Char)), row_fits r (update_row ws r)
  | _, [] => trivial
  | [], _ :: _ => trivial
  | _ :: ws, _ :: cells => ⟨Nat.le_max_right _ _, row_fits_update ws cells⟩

theorem row_fits_mono : ∀ {r : List (List Char)} {ws ws2 : List Nat},
    row_fits r ws → widths_le ws ws2 → row_fits r ws2
  | [], _, _, _, _ => trivial
  | _ :: _, [], [], _, _ => trivial
  | _ :: _, [], _ :: _, _, h => h.elim
  | _ :: _, _ :: _, [], _, h => h.elim
  | _ :: _, _ :: _, _ :: _, ⟨h1, h2⟩, ⟨h3, h4⟩ => ⟨le_trans h1 h3, row_fits_mono h2 h4⟩

theorem foldl_update_le : ∀ (rows : List (List (List Char))) (ws : List Nat),
    widths_le ws (rows.foldl update_row ws)
  | [], ws => widths_le_refl ws
  | r :: rs, ws =>
    widths_le_trans (widths_le_update ws r) (foldl_update_le rs (update_row ws r))

theorem row_fits_foldl : ∀ (rows : List (List (List Char))) (ws : List Nat),
    ∀ r ∈ rows, row_fits r (rows.foldl update_row ws)
  | r0 :: rs, ws, r, hr => by
    rcases List.mem_cons.mp hr with h | h
    · subst h
      exact row_fits_mono (row_fits_update ws r) (foldl_update_le rs (update_row ws r))
    · exact row_fits_foldl rs (update_row ws r0) r h

theorem row_cells_frame : ∀ (row : List (List Char)) (ws : List Nat),
    row_fits row ws → ∀ f : Formatter, FrameEq f (row_cells f row ws)
  | [], _, _, _ => FrameEq.refl
  | _ :: _, [], _, _ => FrameEq.refl
  | c :: cs, w :: ws, h, f => by
    have step : FrameEq f
        { f with
          content := f.content ++ (' ' :: (c ++ List.replicate (w - c.length) ' ' ++ [' ', '|'])),
          ok := f.ok && decide (c.length ≤ w) } := by
      refine ⟨rfl, ?_⟩
      show (f.ok && decide (c.length ≤ w)) = f.ok
      rw [decide_eq_true h.1, Bool.and_true]
    exact step.trans (row_cells_frame cs ws h.2 _)

theorem format_table_row_frame (row : List (List Char)) (ws : List Nat)
    (h : row_fits row ws) (f : Formatter) : FrameEq f (format_table_row f row ws) :=
  (FrameEq.refl (f := f)).trans (row_cells_frame row ws h (push_str f ['|']))

theorem sep_foldl_frame : ∀ (ws : List Nat) (g : Formatter),
    FrameEq g (ws.foldl (fun g w => push_str g (' ' :: (List.replicate w '-' ++ [' ', '|']))) g)
  | [], _ => FrameEq.refl
  | w :: ws, g =>
    (FrameEq.refl (f := g)).trans (sep_foldl_frame ws (push_str g (' ' :: (List.replicate w '-' ++ [' ', '|']))))

theorem rows_foldl_frame : ∀ (rows : List (List (List Char))) (ws : List Nat),
    (∀ r ∈ rows, row_fits r ws) → ∀ g : Formatter,
    FrameEq g (rows.foldl (fun g r => format_table_row g r ws) g)
  | [], _, _, _ => FrameEq.refl
  | r :: rs, ws, h, g =>
    (format_table_row_frame r ws (h r (List.mem_cons_self r rs)) g).trans
      (rows_foldl_frame rs ws (fun r2 h2 => h r2 (List.mem_cons_of_mem _ h2)) _)

theorem frame_step {f g : Formatter} (h1 : g.indent_level = f.indent_level)
    (h2 : g.ok = f.ok) : FrameEq f g := ⟨h1, h2⟩

theorem format_table_frame (g : Formatter) : FrameEq g (format_table g) := by
  unfold format_table
  split
  · exact FrameEq.refl
  · next r0 rest heq =>
    dsimp only
    have hfit0 : row_fits r0 (compute_col_widths (r0 :: rest) r0.length) :=
      row_fits_foldl (r0 :: rest) (List.replicate r0.length 0) r0 (List.mem_cons_self _ _)
    have hfits : ∀ r ∈ rest, row_fits r (compute_col_widths (r0 :: rest) r0.length) :=
      fun r hr => row_fits_foldl (r0 :: rest) (List.replicate r0.length 0) r
        (List.mem_cons_of_mem _ hr)
    have s1 : FrameEq g
        (format_table_row (add_double_newline g) r0 (compute_col_widths (r0 :: rest) r0.length)) :=
      (frame_step rfl rfl).trans
        (format_table_row_frame r0 _ hfit0 (add_double_newline g))
    have s2 : FrameEq g
        (List.foldl (fun g w => push_str g (' ' :: (List.replicate w '-' ++ [' ', '|'])))
          (push_str (format_table_row (add_double_newline g) r0
            (compute_col_widths (r0 :: rest) r0.length)) ['|'])
          (compute_col_widths (r0 :: rest) r0.length)) :=
      (s1.trans (frame_step rfl rfl)).trans (sep_foldl_frame _ _)
    have s3 : FrameEq g
        (List.foldl (fun g r => format_table_row g r (compute_col_widths (r0 :: rest) r0.length))
          (add_newline
            (List.foldl (fun g w => push_str g (' ' :: (List.replicate w '-' ++ [' ', '|'])))
              (push_str (format_table_row (add_double_newline g) r0
                (compute_col_widths (r0 :: rest) r0.length)) ['|'])
              (compute_col_widths (r0 :: rest) r0.length))) rest) :=
      (s2.trans (frame_step rfl rfl)).trans (rows_foldl_frame rest _ hfits _)
    exact s3.trans (frame_step rfl rfl)

theorem table_finish_frame (g : Formatter) : FrameEq g (table_finish g) :=
  format_table_frame g

theorem tr_finish_frame (g : Formatter) : FrameEq g (tr_finish g) := by
  unfold tr_finish
  split <;> exact FrameEq.refl

theorem link_finish_frame (old : List Char) (href : Option String) (g : Formatter) :
    FrameEq g (link_finish old href g) := by
  unfold link_finish
  rcases href with _ | url <;> exact FrameEq.refl

theorem process_image_frame (f : Formatter) (attrs : List (String × String)) :
    FrameEq f (process_image f attrs) := by
  simp only [process_image]
  rcases find_attr attrs "src" with _ | url <;> exact FrameEq.refl

theorem extract_metadata_frame (f : Formatter) (attrs : List (String × String)) :
    FrameEq f (extract_metadata f attrs) := by
  unfold extract_metadata
  rcases find_attr attrs "property" with _ | p
  · exact FrameEq.refl
  · rcases find_attr attrs "content" with _ | c
    · exact FrameEq.refl
    · refine frame_ite (fun _ => FrameEq.refl) fun _ => ?_
      refine frame_ite (fun _ => FrameEq.refl) fun _ => ?_
      refine frame_ite (fun _ => FrameEq.refl) fun _ => ?_
      refine frame_ite (fun _ => FrameEq.refl) fun _ => ?_
      exact frame_ite (fun _ => FrameEq.refl) fun _ => FrameEq.refl

theorem pre_start_frame (f : Formatter) (attrs : List (String × String)) :
    FrameEq f (pre_start f attrs) := by
  unfold pre_start
  dsimp only
  split
  · split <;> exact ⟨rfl, rfl⟩
  · exact ⟨rfl, rfl⟩

theorem list_finish_frame (step : Nat) (f g : Formatter)
    (hi : g.indent_level = f.indent_level + step) (ho : g.ok = f.ok) :
    FrameEq f (list_finish step g) := by
  constructor
  · show g.indent_level - step = f.indent_level
    rw [hi]
    omega
  · show (g.ok && decide (step ≤ g.indent_level)) = f.ok
    rw [ho, hi, decide_eq_true (Nat.le_add_left step f.indent_level), Bool.and_true]

/-- Each `h1`..`h6` tag name parses to its digit. -/
theorem heading_parse (name : String) (h : is_heading_tag name = true) :
    ∃ d, parse_usize (name.data.drop 1) = some d ∧ 1 ≤ d ∧ d ≤ 6 := by
  simp only [is_heading_tag, Bool.or_eq_true, beq_iff_eq] at h
  rcases h with ((((h | h) | h) | h) | h) | h <;> subst h
  · exact ⟨1, by decide, by decide, by decide⟩
  · exact ⟨2, by decide, by decide, by decide⟩
  · exact ⟨3, by decide, by decide, by decide⟩
  · exact ⟨4, by decide, by decide, by decide⟩
  · exact ⟨5, by decide, by decide, by decide⟩
  · exact ⟨6, by decide, by decide, by decide⟩

mutual

/-- The walk leaves `indent_level` unchanged and never clears the ghost
panic-freedom flag. -/
theorem process_node_frame : ∀ (n : Node) (f : Formatter), FrameEq f (process_node f n)
  | .element name attrs cs, f => by
    simp only [process_node]
    refine frame_ite (fun _ => FrameEq.refl) fun _ => ?_
    refine frame_ite (fun h1 => ?_) fun _ => ?_
    · -- heading arm
      refine frame_ite (fun _ => ?_) fun _ => FrameEq.refl
      rcases hpar : parse_usize (name.data.drop 1) with _ | d
      · obtain ⟨d2, hd2, _, _⟩ := heading_parse name h1
        rw [hpar] at hd2
        exact absurd hd2 (by simp)
      · refine frame_ite (fun _ => ?_) fun _ => FrameEq.refl
        exact ((FrameEq.refl (f := f)).trans (process_children_frame cs (header_start f d)))
    · refine frame_ite (fun _ => ?_) fun _ => ?_
      · -- link arm
        refine frame_ite (fun _ => ?_) fun _ => process_children_frame cs f
        exact (((FrameEq.refl (f := f)).trans
          (process_children_frame cs { f with content := [] })).trans
            (link_finish_frame f.content (find_attr attrs "href") _))
      refine frame_ite (fun _ => process_image_frame f attrs) fun _ => ?_
      refine frame_ite (fun _ => extract_metadata_frame f attrs) fun _ => ?_
      refine frame_ite (fun _ => ?_) fun _ => ?_
      · -- pre arm
        exact (pre_start_frame f attrs).trans (process_children_frame cs (pre_start f attrs))
      refine frame_ite (fun _ => ?_) fun _ => ?_
      · -- code arm
        exact (FrameEq.refl (f := f)).trans (process_children_frame cs (code_start f))
      refine frame_ite (fun _ => ?_) fun _ => ?_
      · -- table arm
        exact (((FrameEq.refl (f := f)).trans
          (process_children_frame cs (table_start f))).trans (table_finish_frame _))
      refine frame_ite (fun _ => ?_) fun _ => ?_
      · -- tr arm
        exact (((FrameEq.refl (f := f)).trans
          (process_children_frame cs { f with current_row := [] })).trans (tr_finish_frame _))
      refine frame_ite (fun _ => ?_) fun _ => ?_
      · -- th/td arm
        exact (FrameEq.refl (f := f)).trans (process_children_frame cs { f with current_cell := [] })
      refine frame_ite (fun _ => ?_) fun _ => ?_
      · -- ul arm
        have ih := process_list_items_frame cs (list_start f .unordered 2) .unordered 1
        exact list_finish_frame 2 f _ ih.1 ih.2
      refine frame_ite (fun _ => ?_) fun _ => ?_
      · -- ol arm
        have ih := process_list_items_frame cs (list_start f (.ordered 1) 3) (.ordered 1) 1
        exact list_finish_frame 3 f _ ih.1 ih.2
      rcases inline_tag name with _ | marks
      · refine frame_ite (fun _ => ?_) fun _ => process_children_frame cs f
        exact (FrameEq.refl (f := f)).trans (process_children_frame cs (add_double_newline f))
      · exact (FrameEq.refl (f := f)).trans (process_children_frame cs (push_str f marks.1))
  | .text t, f => by
    simp only [process_node]
    refine frame_ite (fun _ => FrameEq.refl) fun _ => ?_
    exact frame_ite (fun _ => FrameEq.refl) fun _ => FrameEq.refl
  | .comment c, f => by
    simp only [process_node]
    exact frame_ite (fun _ => FrameEq.refl) fun _ => FrameEq.refl
  | .pinstr, f => by
    simp only [process_node]
    exact frame_ite (fun _ => FrameEq.refl) fun _ => FrameEq.refl
  | .doctype, f => by
    simp only [process_node]
    exact frame_ite (fun _ => FrameEq.refl) fun _ => FrameEq.refl
  | .document cs, f => by
    simp only [process_node]
    exact frame_ite (fun _ => FrameEq.refl) fun _ => process_children_frame cs f

theorem process_children_frame : ∀ (l : List Node) (f : Formatter),
    FrameEq f (process_children f l)
  | [], _ => FrameEq.refl
  | c :: cs, f =>
    (process_node_frame c f).trans (process_children_frame cs (process_node f c))

theorem process_list_items_frame : ∀ (l : List Node) (f : Formatter) (lt : ListType) (count : Nat),
    FrameEq f (process_list_items f lt count l)
  | [], _, _, _ => FrameEq.refl
  | .element cname cattrs ccs :: cs, f, lt, count => by
    simp only [process_list_items]
    refine frame_ite (fun _ => ?_) fun _ => process_list_items_frame cs f lt count
    refine FrameEq.trans ?_
      (process_list_items_frame cs
        (add_newline (process_node (push_str f (List.replicate f.indent_level ' '
          ++ item_mark lt count)) (.element cname cattrs ccs))) lt ((count + 1) % 256))
    exact (FrameEq.refl (f := f)).trans
      (process_node_frame (.element cname cattrs ccs)
        (push_str f (List.replicate f.indent_level ' ' ++ item_mark lt count)))
  | .text t :: cs, f, lt, count => process_list_items_frame cs f lt count
  | .comment c :: cs, f, lt, count => process_list_items_frame cs f lt count
  | .pinstr :: cs, f, lt, count => process_list_items_frame cs f lt count
  | .doctype :: cs, f, lt, count => process_list_items_frame cs f lt count
  | .document dcs :: cs, f, lt, count => process_list_items_frame cs f lt count

end

/-- Claim C1: for every finite well-formed tree and every configuration the
conversion terminates (it is a total structurally recursive function of the
tree) and never reaches a panicking operation: the ghost panic-freedom flag
of the final state is still `true`.  The `u8` list counter wraps modulo
`2^8` (release-profile arithmetic) instead of trapping. -/
theorem claim_C1_convert_total_no_panic (config : ConvertConfig) (doc : Node) :
    (html_to_markdown config doc).2 = true :=
  (process_node_frame doc (Formatter.new config)).2

/-! ### The newline-coalescing primitives and concrete dispatch facts -/

theorem nl_pairs_append_nl : ∀ s : List Char, s.getLast? ≠ some '\n' →
    nl_pairs (s ++ ['\n']) = nl_pairs s
  | [], _ => rfl
  | [a], h => by
    have ha : a ≠ '\n' := by simpa using h
    simp [nl_pairs, ha]
  | a :: b :: rest, h => by
    have h2 : (b :: rest).getLast? ≠ some '\n' := by
      rwa [List.getLast?_cons_cons] at h
    show (if a = '\n' ∧ b = '\n' then 1 else 0) + nl_pairs ((b :: rest) ++ ['\n'])
        = (if a = '\n' ∧ b = '\n' then 1 else 0) + nl_pairs (b :: rest)
    rw [nl_pairs_append_nl (b :: rest) h2]

theorem nl_pairs_ensure (s : List Char) : nl_pairs (ensure_newline s) = nl_pairs s := by
  unfold ensure_newline
  split
  · rfl
  · exact nl_pairs_append_nl s (by assumption)

theorem should_skip_elem_false (f : Formatter) (name : String)
    (attrs : List (String × String)) (cs : List Node)
    (h1 : name ≠ "script") (h2 : name ≠ "style") :
    should_skip_node f (.element name attrs cs) = false := by
  unfold should_skip_node
  split
  · rfl
  · simp [h1, h2]

/-- Dispatch: the `a` arm. -/
theorem process_node_a (f : Formatter) (attrs : List (String × String)) (cs : List Node) :
    process_node f (.element "a" attrs cs) =
      if f.config.include_links = true then
        link_finish f.content (find_attr attrs "href")
          (process_children { f with content := [] } cs)
      else process_children f cs := by
  simp [process_node, should_skip_node, is_heading_tag]

/-- Dispatch: the `ul` arm. -/
theorem process_node_ul (f : Formatter) (attrs : List (String × String)) (cs : List Node) :
    process_node f (.element "ul" attrs cs) =
      list_finish 2 (process_list_items (list_start f .unordered 2) .unordered 1 cs) := by
  simp [process_node, should_skip_node, is_heading_tag, inline_tag, is_block_tag]

/-- Dispatch: the `ol` arm. -/
theorem process_node_ol (f : Formatter) (attrs : List (String × String)) (cs : List Node) :
    process_node f (.element "ol" attrs cs) =
      list_finish 3 (process_list_items (list_start f (.ordered 1) 3) (.ordered 1) 1 cs) := by
  simp [process_node, should_skip_node, is_heading_tag, inline_tag, is_block_tag]

/-- Dispatch: an `li` element with no children contributes nothing. -/
theorem process_node_li_empty (g : Formatter) :
    process_node g (.element "li" [] []) = g := by
  simp [process_node, should_skip_node, is_heading_tag, inline_tag, is_block_tag,
    process_children]

/-- Dispatch: a heading tag whose level parses to `d`. -/
theorem process_node_heading (f : Formatter) (name : String)
    (attrs : List (String × String)) (cs : List Node) (d : Nat)
    (hh : is_heading_tag name = true) (hp : parse_usize (name.data.drop 1) = some d) :
    process_node f (.element name attrs cs) =
      if f.config.preserve_headings = true then
        (if d % 256 ≤ f.config.max_heading_level then
          add_double_newline (process_children (header_start f d) cs)
        else f)
      else f := by
  have hs : should_skip_node f (.element name attrs cs) = false := by
    simp only [is_heading_tag, Bool.or_eq_true, beq_iff_eq] at hh
    rcases hh with ((((h | h) | h) | h) | h) | h <;> subst h <;>
      exact should_skip_elem_false _ _ _ _ (by decide) (by decide)
  have hp2 : parse_usize name.data.tail = some d := by rwa [List.drop_one] at hp
  simp [process_node, hs, hh, hp2]

/-- Claim C3 (code bug evidence): two sibling paragraphs are separated by a
single newline, not by a blank line.  `add_double_newline` calls the
coalescing `add_newline` twice, and the second call always sees a buffer
that already ends with a newline, so no blank-line boundary is ever
created around `p`/`div`/`article`/`section` content. -/
theorem claim_C3_paragraph_boundary_is_single_newline :
    html_to_markdown cfg_default
        (.document [.element "p" [] [.text "a"], .element "p" [] [.text "b"]])
      = ("a\nb".data, true) ∧
    nl_pairs "a\nb".data = 0 ∧ "a\nb".data ≠ "a\n\nb".data :=
  ⟨by decide, by decide, by decide⟩

/-- Claim C4 (amended): the newline-emitting write primitives never create
an adjacent newline pair — `add_newline` appends only to a buffer that does
not already end in a newline — so the primitives themselves never create any
blank line; the buffer may nevertheless already contain consecutive blank
lines placed there verbatim by text nodes. -/
theorem claim_C4_primitives_create_no_blank_line (f : Formatter) :
    nl_pairs (add_newline f).content = nl_pairs f.content ∧
    nl_pairs (add_double_newline f).content = nl_pairs f.content := by
  refine ⟨nl_pairs_ensure f.content, ?_⟩
  show nl_pairs (ensure_newline (ensure_newline f.content)) = _
  rw [nl_pairs_ensure, nl_pairs_ensure]

/-- Claim C4 counterexample: with cleaning off, a text node puts four
consecutive newlines (three blank lines) into the buffer, and the very next
sibling is a `p` whose handler invokes the boundary primitive on exactly
that buffer — the claimed at-most-one-blank-line bound does not hold there. -/
theorem claim_C4_counterexample :
    (process_node (Formatter.new cfg_default) (.text "x\n\n\n\n")).content = "x\n\n\n\n".data ∧
    has_triple_newline "x\n\n\n\n".data = true ∧
    process_children (Formatter.new cfg_default) [.text "x\n\n\n\n", .element "p" [] [.text "y"]]
      = process_node (process_node (Formatter.new cfg_default) (.text "x\n\n\n\n"))
          (.element "p" [] [.text "y"]) :=
  ⟨by decide, by decide, rfl⟩

/-- Claim C5 (amended): when `include_links` is `true` and the `a` element
has no `href`, the children are rendered only into the side buffer that is
then discarded — the element contributes nothing to the output. -/
theorem claim_C5_href_missing_drops_children (f : Formatter)
    (attrs : List (String × String)) (cs : List Node)
    (h : find_attr attrs "href" = none) (hl : f.config.include_links = true) :
    (process_node f (.element "a" attrs cs)).content = f.content := by
  rw [process_node_a, if_pos hl]
  show (link_finish f.content (find_attr attrs "href")
    (process_children { f with content := [] } cs)).content = f.content
  rw [h]
  rfl

theorem claim_C5_witness :
    find_attr [("rel", "nofollow")] "href" = none ∧ cfg_links.include_links = true ∧
    (process_node (Formatter.new cfg_links)
        (.element "a" [("rel", "nofollow")] [.text "hello"])).content
      = (Formatter.new cfg_links).content :=
  ⟨by decide, by decide,
    claim_C5_href_missing_drops_children (Formatter.new cfg_links) _ _ (by decide) (by decide)⟩

/-- Claim C5 counterexample: with `include_links = true` and no `href`, the
link text `hello` is dropped from the output entirely (the claim says the
children are rendered under every configuration); with `include_links =
false` the same element does render its children. -/
theorem claim_C5_counterexample :
    (process_node (Formatter.new cfg_links) (.element "a" [] [.text "hello"])).content = [] ∧
    ("hello".data : List Char) ≠ [] ∧
    (process_node (Formatter.new cfg_default) (.element "a" [] [.text "hello"])).content
      = "hello".data :=
  ⟨by decide, by decide, by decide⟩

/-- Claim C6: for an `a` element with an `href`: with `include_links` the
children are rendered into a cleared side buffer, the result is trimmed,
and the element emits `[text](href)` when the trimmed text is non-empty and
differs from the href, otherwise the autolink `<href>`; without
`include_links` only the children are rendered and the href is discarded. -/
theorem claim_C6_link_with_href (f : Formatter) (attrs : List (String × String))
    (cs : List Node) (url : String) (h : find_attr attrs "href" = some url) :
    (f.config.include_links = true →
      process_node f (.element "a" attrs cs) =
        push_str { process_children { f with content := [] } cs with content := f.content }
          (if trim (process_children { f with content := [] } cs).content ≠ [] ∧
              trim (process_children { f with content := [] } cs).content ≠ url.data
           then '[' :: trim (process_children { f with content := [] } cs).content
                ++ ']' :: '(' :: url.data ++ [')']
           else '<' :: url.data ++ ['>'])) ∧
    (f.config.include_links = false →
      process_node f (.element "a" attrs cs) = process_children f cs) := by
  constructor
  · intro hl
    rw [process_node_a, if_pos hl]
    show (link_finish f.content (find_attr attrs "href")
      (process_children { f with content := [] } cs)) = _
    rw [h]
    rfl
  · intro hl
    rw [process_node_a, if_neg (by simp [hl])]

theorem claim_C6_witness :
    find_attr [("href", "http://x.com")] "href" = some "http://x.com" ∧
    (process_node (Formatter.new cfg_links)
        (.element "a" [("href", "http://x.com")] [.text "Click"])).content
      = "[Click](http://x.com)".data ∧
    (process_node (Formatter.new cfg_links)
        (.element "a" [("href", "http://x.com")] [.text "http://x.com"])).content
      = "<http://x.com>".data := by
  refine ⟨by decide, ?_, ?_⟩
  · rw [(claim_C6_link_with_href (Formatter.new cfg_links)
      [("href", "http://x.com")] [.text "Click"] "http://x.com" (by decide)).1 (by decide)]
    decide
  · rw [(claim_C6_link_with_href (Formatter.new cfg_links)
      [("href", "http://x.com")] [.text "http://x.com"] "http://x.com" (by decide)).1 (by decide)]
    decide

/-- Claim C10: the `pre` handler clears `in_code_block` unconditionally on
exit, whatever the flag was on entry; consequently, after a `pre` nested in
a `code` element closes, whitespace cleaning applies again to the rest of
the `code` element's children (the sibling text `a  b` is cleaned to `a b`
even though it sits inside the outer `code`). -/
theorem claim_C10_pre_clears_code_flag :
    (∀ (f : Formatter) (attrs : List (String × String)) (cs : List Node),
        (process_node f (.element "pre" attrs cs)).in_code_block = false) ∧
    (process_node (Formatter.new cfg_cw)
        (.element "code" [] [.element "pre" [] [], .text "a  b"])).content
      = "`\n```\n\n```\na b`".data := by
  constructor
  · intro f attrs cs
    simp [process_node, should_skip_node, is_heading_tag, pre_finish]
  · decide

/-- Claim C8: a heading `h1`..`h6` of level `d` is emitted exactly when
`preserve_headings` holds and `d ≤ max_heading_level`; when emitted it
produces a paragraph boundary, `d` `#` characters, a space, the recursively
formatted children, then a paragraph boundary; otherwise the heading and its
children contribute nothing at all. -/
theorem claim_C8_heading_cap (f : Formatter) (d : Nat) (attrs : List (String × String))
    (cs : List Node) (hd1 : 1 ≤ d) (hd6 : d ≤ 6) :
    ((f.config.preserve_headings = true ∧ d ≤ f.config.max_heading_level) →
      process_node f (.element (hname d) attrs cs) =
        add_double_newline (process_children (header_start f d) cs)) ∧
    (¬(f.config.preserve_headings = true ∧ d ≤ f.config.max_heading_level) →
      process_node f (.element (hname d) attrs cs) = f) := by
  have hh : is_heading_tag (hname d) = true := by interval_cases d <;> decide
  have hp : parse_usize ((hname d).data.drop 1) = some d := by interval_cases d <;> decide
  have hmod : d % 256 = d := Nat.mod_eq_of_lt (by omega)
  rw [process_node_heading f (hname d) attrs cs d hh hp, hmod]
  constructor
  · rintro ⟨hpres, hle⟩
    rw [if_pos hpres, if_pos hle]
  · intro hneg
    by_cases hpres : f.config.preserve_headings = true
    · rw [if_pos hpres, if_neg (fun hle => hneg ⟨hpres, hle⟩)]
    · rw [if_neg hpres]

theorem claim_C8_witness :
    (cfg_h2.preserve_headings = true ∧ (2 : Nat) ≤ cfg_h2.max_heading_level) ∧
    ¬(cfg_h2.preserve_headings = true ∧ (3 : Nat) ≤ cfg_h2.max_heading_level) ∧
    process_node (Formatter.new cfg_h2) (.element "h3" [] [.text "x"]) = Formatter.new cfg_h2 ∧
    (html_to_markdown cfg_h2 (.document [.element "h2" [] [.text "Title"]])).1
      = "## Title".data := by
  refine ⟨by decide, by decide, ?_, by decide⟩
  exact (claim_C8_heading_cap (Formatter.new cfg_h2) 3 [] [.text "x"]
    (by decide) (by decide)).2 (by decide)

/-! ### List items: position-indexed markers and the `u8` wraparound -/

theorem items_eq_spec_unordered : ∀ (cs : List Node) (f : Formatter) (c k : Nat),
    process_list_items f .unordered c cs = items_spec .unordered f k cs
  | [], _, _, _ => rfl
  | .element cname cattrs ccs :: cs, f, c, k => by
    by_cases hli : cname = "li"
    · simp only [process_list_items, items_spec, hli, if_pos, item_mark, spec_mark]
      exact items_eq_spec_unordered cs _ ((c + 1) % 256) (k + 1)
    · simp only [process_list_items, items_spec, if_neg hli]
      exact items_eq_spec_unordered cs f c k
  | .text t :: cs, f, c, k => items_eq_spec_unordered cs f c k
  | .comment t :: cs, f, c, k => items_eq_spec_unordered cs f c k
  | .pinstr :: cs, f, c, k => items_eq_spec_unordered cs f c k
  | .doctype :: cs, f, c, k => items_eq_spec_unordered cs f c k
  | .document dcs :: cs, f, c, k => items_eq_spec_unordered cs f c k

theorem items_eq_spec_ordered : ∀ (cs : List Node) (f : Formatter) (start k c : Nat),
    c = (start + k) % 256 →
    process_list_items f (.ordered start) c cs = items_spec (.ordered start) f k cs
  | [], _, _, _, _, _ => rfl
  | .element cname cattrs ccs :: cs, f, start, k, c, h => by
    by_cases hli : cname = "li"
    · simp only [process_list_items, items_spec, hli, if_pos, item_mark, spec_mark]
      rw [h]
      exact items_eq_spec_ordered cs _ start (k + 1) (((start + k) % 256 + 1) % 256)
        (by omega)
    · simp only [process_list_items, items_spec, if_neg hli]
      exact items_eq_spec_ordered cs f start k c h
  | .text t :: cs, f, start, k, c, h => items_eq_spec_ordered cs f start k c h
  | .comment t :: cs, f, start, k, c, h => items_eq_spec_ordered cs f start k c h
  | .pinstr :: cs, f, start, k, c, h => items_eq_spec_ordered cs f start k c h
  | .doctype :: cs, f, start, k, c, h => items_eq_spec_ordered cs f start k c h
  | .document dcs :: cs, f, start, k, c, h => items_eq_spec_ordered cs f start k c h

theorem add_newline_push_of_last (f : Formatter) (m : List Char)
    (h : m.getLast? = some ' ') :
    add_newline (push_str f m) = push_str f (m ++ ['\n']) := by
  have hne : m ≠ [] := by intro he; rw [he] at h; exact Option.noConfusion h
  unfold add_newline push_str ensure_newline
  rw [List.getLast?_append_of_ne_nil _ hne, h]
  rw [if_neg (by decide)]
  simp [List.append_assoc]

theorem items_replicate : ∀ (n : Nat) (f : Formatter) (c : Nat),
    process_list_items f (.ordered 1) c (List.replicate n (.element "li" [] []))
      = { f with content := f.content ++ wrap_marks f.indent_level c n }
  | 0, f, c => by simp [process_list_items, wrap_marks]
  | n + 1, f, c => by
    rw [List.replicate_succ]
    simp only [process_list_items, item_mark, if_pos]
    rw [process_node_li_empty,
      add_newline_push_of_last f _
        (by
          rw [List.getLast?_append_of_ne_nil _ (by simp [show ". ".data = ['.', ' '] from rfl]),
            List.getLast?_append_of_ne_nil _ (by decide)]
          rfl),
      items_replicate n _ ((c + 1) % 256)]
    simp [push_str, wrap_marks, List.append_assoc,
      show ". ".data = ['.', ' '] from rfl, show ". \n".data = ['.', ' ', '\n'] from rfl]

theorem ensure_newline_of_nl (l : List Char) (h : l.getLast? = some '\n') :
    ensure_newline l = l := by
  unfold ensure_newline
  rw [if_pos h]

theorem wrap_marks_last : ∀ (n ind c : Nat), n ≠ 0 →
    (wrap_marks ind c n).getLast? = some '\n'
  | 0, _, _, h => absurd rfl h
  | n + 1, ind, c, _ => by
    cases n with
    | zero =>
      show (List.replicate ind ' ' ++ (Nat.repr c).data ++ ". \n".data ++ []).getLast?
          = some '\n'
      rw [List.append_nil, List.getLast?_append_of_ne_nil _ (by decide)]
      rfl
    | succ m =>
      show (List.replicate ind ' ' ++ (Nat.repr c).data ++ ". \n".data
          ++ wrap_marks ind ((c + 1) % 256) (m + 1)).getLast? = some '\n'
      have hlast := wrap_marks_last (m + 1) ind ((c + 1) % 256) (by omega)
      have hne : wrap_marks ind ((c + 1) % 256) (m + 1) ≠ [] := by
        intro he
        rw [he] at hlast
        exact Option.noConfusion hlast
      rw [List.getLast?_append_of_ne_nil _ hne]
      exact hlast

/-- The last of `n ≥ 1` ordered items emitted from counter value `c < 256`
carries the wrapped number `(c + n - 1) % 256`. -/
theorem wrap_marks_decomp : ∀ (n ind c : Nat), c < 256 → n ≠ 0 →
    ∃ pre, wrap_marks ind c n
      = pre ++ (List.replicate ind ' ' ++ (Nat.repr ((c + n - 1) % 256)).data ++ ". \n".data)
  | 0, _, _, _, h => absurd rfl h
  | n + 1, ind, c, hc, _ => by
    cases n with
    | zero =>
      refine ⟨[], ?_⟩
      show List.replicate ind ' ' ++ (Nat.repr c).data ++ ". \n".data ++ [] = _
      rw [List.append_nil, List.nil_append,
        show c + 1 - 1 = c by omega, Nat.mod_eq_of_lt hc, List.append_assoc]
    | succ m =>
      obtain ⟨pre, hp⟩ :=
        wrap_marks_decomp (m + 1) ind ((c + 1) % 256) (Nat.mod_lt _ (by omega)) (by omega)
      refine ⟨List.replicate ind ' ' ++ (Nat.repr c).data ++ ". \n".data ++ pre, ?_⟩
      show List.replicate ind ' ' ++ (Nat.repr c).data ++ ". \n".data
          ++ wrap_marks ind ((c + 1) % 256) (m + 1) = _
      rw [hp, show ((c + 1) % 256 + (m + 1) - 1) % 256 = (c + (m + 1 + 1) - 1) % 256 by omega]
      simp [List.append_assoc]

/-- The last of `n ≥ 1` items as the unamended claim predicts them: number
`c + n - 1` with no wraparound. -/
theorem plain_marks_decomp : ∀ (n ind c : Nat), n ≠ 0 →
    ∃ pre, plain_marks ind c n
      = pre ++ (List.replicate ind ' ' ++ (Nat.repr (c + n - 1)).data ++ ". \n".data)
  | 0, _, _, h => absurd rfl h
  | n + 1, ind, c, _ => by
    cases n with
    | zero =>
      refine ⟨[], ?_⟩
      show List.replicate ind ' ' ++ (Nat.repr c).data ++ ". \n".data ++ [] = _
      rw [List.append_nil, List.nil_append, show c + 1 - 1 = c by omega, List.append_assoc]
    | succ m =>
      obtain ⟨pre, hp⟩ := plain_marks_decomp (m + 1) ind (c + 1) (by omega)
      refine ⟨List.replicate ind ' ' ++ (Nat.repr c).data ++ ". \n".data ++ pre, ?_⟩
      show List.replicate ind ' ' ++ (Nat.repr c).data ++ ". \n".data
          ++ plain_marks ind (c + 1) (m + 1) = _
      rw [hp, show c + 1 + (m + 1) - 1 = c + (m + 1 + 1) - 1 by omega]
      simp [List.append_assoc]

/-- Claim C9 (amended): `ul`/`ol` push a descriptor and widen the indent by
the fixed step (2 unordered, 3 ordered), format only direct `li` children —
per item: indent spaces, then `* ` or `N. ` where `N` is the start value `1`
plus the zero-based item position reduced modulo `2^8` (the counter is a
`u8` and wraps), then the recursively formatted item, then a coalesced line
break — then pop the descriptor, restore the indent and ensure one trailing
line break; counters restart at `1` in each new list scope.  The spec's
nesting example renders as `  * A    * B` on one line: the nested list is
emitted inline inside the item content, with no line break before its first
marker. -/
theorem claim_C9_list_rendering (f : Formatter) (attrs : List (String × String))
    (cs : List Node) :
    process_node f (.element "ul" attrs cs)
      = list_finish 2 (items_spec .unordered (list_start f .unordered 2) 0 cs) ∧
    process_node f (.element "ol" attrs cs)
      = list_finish 3 (items_spec (.ordered 1) (list_start f (.ordered 1) 3) 0 cs) ∧
    (process_node (Formatter.new cfg_default)
        (.element "ul" [] [.element "li" [] [.text "A",
          .element "ul" [] [.element "li" [] [.text "B"]]]])).content
      = "  * A    * B\n".data := by
  refine ⟨?_, ?_, by decide⟩
  · rw [process_node_ul]
    congr 1
    exact items_eq_spec_unordered cs _ 1 0
  · rw [process_node_ol]
    congr 1
    exact items_eq_spec_ordered cs _ 1 0 1 (by decide)


/-! ### Finalization: collapsing whitespace runs is joining the words -/

theorem drop_while_len {α : Type} (p : α → Bool) : ∀ l : List α,
    (l.dropWhile p).length ≤ l.length
  | [] => le_refl _
  | c :: cs => by
    rw [List.dropWhile_cons]
    split
    · exact le_trans (drop_while_len p cs) (Nat.le_succ _)
    · exact le_refl _

theorem takeWhile_all {α : Type} (p : α → Bool) : ∀ l : List α,
    ∀ x ∈ l.takeWhile p, p x = true
  | [], x, hx => by simp at hx
  | c :: cs, x, hx => by
    rw [List.takeWhile_cons] at hx
    by_cases hc : p c
    · rw [if_pos hc] at hx
      rcases List.mem_cons.mp hx with h | h
      · rwa [h]
      · exact takeWhile_all p cs x h
    · rw [if_neg hc] at hx
      simp at hx

theorem dropWhile_head_false {α : Type} (p : α → Bool) : ∀ (l : List α) (d : α) (ds : List α),
    l.dropWhile p = d :: ds → p d = false
  | [], _, _, h => by simp at h
  | c :: cs, d, ds, h => by
    rw [List.dropWhile_cons] at h
    by_cases hc : p c
    · rw [if_pos hc] at h
      exact dropWhile_head_false p cs d ds h
    · rw [if_neg hc] at h
      rw [← (List.cons.injEq .. |>.mp h).1]
      exact Bool.of_not_eq_true hc

theorem trimL_append : ∀ a b : List Char,
    trimL (a ++ b) = if (trimL a).isEmpty then trimL b else trimL a ++ b
  | [], b => by simp [trimL]
  | c :: a, b => by
    by_cases hc : is_ws c
    · show trimL (c :: (a ++ b)) = _
      unfold trimL
      rw [List.dropWhile_cons, if_pos hc, List.dropWhile_cons, if_pos hc]
      exact trimL_append a b
    · show trimL (c :: (a ++ b)) = _
      unfold trimL
      rw [List.dropWhile_cons, if_neg hc, List.dropWhile_cons, if_neg hc]
      simp

theorem trimL_allws : ∀ l : List Char, (∀ c ∈ l, is_ws c = true) → trimL l = []
  | [], _ => rfl
  | c :: cs, h => by
    unfold trimL
    rw [List.dropWhile_cons, if_pos (h c (List.mem_cons_self _ _))]
    exact trimL_allws cs (fun x hx => h x (List.mem_cons_of_mem _ hx))

theorem trimL_cons_nonws (c : Char) (l : List Char) (h : is_ws c = false) :
    trimL (c :: l) = c :: l := by
  unfold trimL
  rw [List.dropWhile_cons, if_neg (by rw [h]; exact Bool.false_ne_true)]

theorem trimR_ne_nil_iff (l : List Char) : trimR l ≠ [] ↔ trimL l.reverse ≠ [] := by
  unfold trimR
  simp

theorem trimR_append_allws (a b : List Char) (hb : ∀ c ∈ b, is_ws c = true) :
    trimR (a ++ b) = trimR a := by
  unfold trimR
  rw [List.reverse_append, trimL_append,
    trimL_allws b.reverse (fun c hc => hb c (List.mem_reverse.mp hc))]
  simp [trimL]

theorem trimR_append_left (a b : List Char) (hb : trimR b ≠ []) :
    trimR (a ++ b) = a ++ trimR b := by
  have hb2 : (trimL b.reverse).isEmpty = false := by
    simpa using (trimR_ne_nil_iff b).mp hb
  unfold trimR
  rw [List.reverse_append, trimL_append, hb2]
  simp

theorem trim_allws_left (a x : List Char) (ha : ∀ c ∈ a, is_ws c = true) :
    trim (a ++ x) = trim x := by
  unfold trim
  rw [trimL_append, trimL_allws a ha]
  simp

theorem trim_allws_right (x b : List Char) (hb : ∀ c ∈ b, is_ws c = true) :
    trim (x ++ b) = trim x := by
  unfold trim
  rw [trimL_append]
  by_cases hx : (trimL x).isEmpty
  · rw [if_pos hx, trimL_allws b hb]
    have : trimL x = [] := by rwa [List.isEmpty_iff] at hx
    rw [this]
  · rw [if_neg hx]
    exact trimR_append_allws _ _ hb

theorem trimL_nonws : ∀ l : List Char, (∀ c ∈ l, is_ws c = false) → trimL l = l
  | [], _ => rfl
  | c :: cs, h => trimL_cons_nonws c cs (h c (List.mem_cons_self _ _))

theorem trimR_nonws (l : List Char) (h : ∀ c ∈ l, is_ws c = false) : trimR l = l := by
  unfold trimR
  rw [trimL_nonws l.reverse (fun c hc => h c (List.mem_reverse.mp hc)), List.reverse_reverse]

theorem trim_nonws (l : List Char) (h : ∀ c ∈ l, is_ws c = false) : trim l = l := by
  unfold trim
  rw [trimL_nonws l h, trimR_nonws l h]

theorem trim_allws (l : List Char) (h : ∀ c ∈ l, is_ws c = true) : trim l = [] := by
  unfold trim
  rw [trimL_allws l h]
  rfl

theorem trim_head_nonws (c : Char) (l : List Char) (h : is_ws c = false) :
    trim (c :: l) = trimR (c :: l) := by
  unfold trim
  rw [trimL_cons_nonws c l h]

theorem split_aux_spec : ∀ (l acc : List Char),
    split_whitespace_aux acc l =
      if acc.isEmpty then split_whitespace l
      else (acc.reverse ++ l.takeWhile (fun x => !is_ws x))
        :: split_whitespace (l.dropWhile (fun x => !is_ws x))
  | [], acc => by
    by_cases ha : acc.isEmpty <;>
      simp [split_whitespace_aux, split_whitespace, ha]
  | c :: cs, acc => by
    by_cases hc : is_ws c
    · by_cases ha : acc.isEmpty <;>
        simp [split_whitespace_aux, split_whitespace, hc, ha]
    · rw [show split_whitespace_aux acc (c :: cs)
          = split_whitespace_aux (c :: acc) cs by simp [split_whitespace_aux, hc]]
      rw [split_aux_spec cs (c :: acc)]
      by_cases ha : acc.isEmpty
      · rw [if_pos ha]
        rcases List.isEmpty_iff.mp ha with rfl
        rw [show split_whitespace (c :: cs)
            = split_whitespace_aux ([] ++ [c]) cs by simp [split_whitespace, split_whitespace_aux, hc]]
        rw [split_aux_spec cs ([] ++ [c])]
        simp
      · rw [if_neg ha]
        simp [hc, List.takeWhile_cons, List.dropWhile_cons]

theorem split_nil : split_whitespace ([] : List Char) = [] := rfl

theorem split_ws_cons (c : Char) (cs : List Char) (hc : is_ws c = true) :
    split_whitespace (c :: cs) = split_whitespace cs := by
  show split_whitespace_aux [] (c :: cs) = _
  simp [split_whitespace_aux, hc]
  rfl

theorem split_word_cons (c : Char) (cs : List Char) (hc : is_ws c = false) :
    split_whitespace (c :: cs)
      = (c :: cs.takeWhile (fun x => !is_ws x))
        :: split_whitespace (cs.dropWhile (fun x => !is_ws x)) := by
  show split_whitespace_aux [] (c :: cs) = _
  rw [show split_whitespace_aux [] (c :: cs)
      = split_whitespace_aux [c] cs by simp [split_whitespace_aux, hc]]
  rw [split_aux_spec cs [c]]
  simp

theorem split_dropWhile_ws : ∀ l : List Char,
    split_whitespace (l.dropWhile is_ws) = split_whitespace l
  | [] => rfl
  | c :: cs => by
    by_cases hc : is_ws c
    · rw [List.dropWhile_cons, if_pos hc, split_dropWhile_ws cs, split_ws_cons c cs hc]
    · rw [List.dropWhile_cons, if_neg hc]

theorem split_allws : ∀ l : List Char, (∀ c ∈ l, is_ws c = true) → split_whitespace l = []
  | [], _ => rfl
  | c :: cs, h => by
    rw [split_ws_cons c cs (h c (List.mem_cons_self _ _))]
    exact split_allws cs (fun x hx => h x (List.mem_cons_of_mem _ hx))

theorem collapse_true_drop (rep : List Char) : ∀ l : List Char,
    collapse_runs rep l true = collapse_runs rep (l.dropWhile is_ws) false
  | [] => by simp [collapse_runs]
  | c :: cs => by
    by_cases hc : is_ws c
    · rw [List.dropWhile_cons, if_pos hc, ← collapse_true_drop rep cs]
      simp [collapse_runs, hc]
    · rw [List.dropWhile_cons, if_neg hc]
      simp [collapse_runs, hc]

theorem collapse_word (rep : List Char) : ∀ (w r : List Char),
    (∀ c ∈ w, is_ws c = false) →
    collapse_runs rep (w ++ r) false = w ++ collapse_runs rep r false
  | [], r, _ => rfl
  | c :: w, r, h => by
    show collapse_runs rep (c :: (w ++ r)) false = _
    rw [show collapse_runs rep (c :: (w ++ r)) false
        = c :: collapse_runs rep (w ++ r) false by
        simp [collapse_runs, h c (List.mem_cons_self _ _)]]
    rw [collapse_word rep w r (fun x hx => h x (List.mem_cons_of_mem _ hx))]
    rfl

theorem collapse_head_nonws (rep : List Char) (c : Char) (cs : List Char)
    (hc : is_ws c = false) :
    collapse_runs rep (c :: cs) false = c :: collapse_runs rep cs false := by
  simp [collapse_runs, hc]

theorem collapse_ws_head (rep : List Char) (c : Char) (cs : List Char) (hc : is_ws c = true) :
    collapse_runs rep (c :: cs) false = rep ++ collapse_runs rep cs true := by
  simp [collapse_runs, hc]

theorem join_cons_ne (sep w : List Char) (ws : List (List Char)) (h : ws ≠ []) :
    join_sep sep (w :: ws) = w ++ sep ++ join_sep sep ws := by
  rcases ws with _ | ⟨x, xs⟩
  · exact absurd rfl h
  · rfl

theorem join_ne_nil (sep w : List Char) (ws : List (List Char)) (hw : w ≠ []) :
    join_sep sep (w :: ws) ≠ [] := by
  rcases ws with _ | ⟨x, xs⟩
  · exact hw
  · show w ++ sep ++ join_sep sep (x :: xs) ≠ []
    simp [hw]

theorem trim_collapse (rep : List Char) (hws : ∀ c ∈ rep, is_ws c = true) :
    ∀ l : List Char, trim (collapse_runs rep l false) = join_sep rep (split_whitespace l)
  | [] => rfl
  | c :: cs => by
    by_cases hc : is_ws c
    · rw [collapse_ws_head rep c cs hc, collapse_true_drop rep cs,
        trim_allws_left rep _ hws,
        trim_collapse rep hws (cs.dropWhile is_ws),
        split_dropWhile_ws cs, split_ws_cons c cs hc]
    · have hc2 : is_ws c = false := by simpa using hc
      have hw : ∀ x ∈ c :: cs.takeWhile (fun x => !is_ws x), is_ws x = false := by
        intro x hx
        rcases List.mem_cons.mp hx with rfl | hx
        · exact hc2
        · simpa using takeWhile_all (fun x => !is_ws x) cs x hx
      have e1 : collapse_runs rep (c :: cs) false
          = (c :: cs.takeWhile (fun x => !is_ws x))
            ++ collapse_runs rep (cs.dropWhile (fun x => !is_ws x)) false := by
        conv_lhs => rw [show c :: cs
            = (c :: cs.takeWhile (fun x => !is_ws x)) ++ cs.dropWhile (fun x => !is_ws x) by
          rw [List.cons_append, List.takeWhile_append_dropWhile]]
        exact collapse_word rep _ _ hw
      rw [e1, split_word_cons c cs hc2]
      cases hdr : cs.dropWhile (fun x => !is_ws x) with
      | nil =>
        rw [show collapse_runs rep [] false = [] from rfl, List.append_nil, split_nil,
          trim_nonws _ hw]
        rfl
      | cons d ds =>
        have hd : is_ws d = true := by
          simpa using dropWhile_head_false (fun x => !is_ws x) cs d ds hdr
        rw [collapse_ws_head rep d ds hd, collapse_true_drop rep ds,
          split_ws_cons d ds hd, ← split_dropWhile_ws ds]
        cases hu : ds.dropWhile is_ws with
        | nil =>
          rw [show collapse_runs rep [] false = [] from rfl, List.append_nil, split_nil,
            trim_allws_right _ rep hws, trim_nonws _ hw]
          rfl
        | cons e es =>
          have he : is_ws e = false := dropWhile_head_false is_ws ds e es hu
          have hR : trimR (collapse_runs rep (e :: es) false)
              = join_sep rep (split_whitespace (e :: es)) := by
            rw [collapse_head_nonws rep e es he, ← trim_head_nonws e _ he,
              ← collapse_head_nonws rep e es he, trim_collapse rep hws (e :: es)]
          have hne : trimR (collapse_runs rep (e :: es) false) ≠ [] := by
            rw [hR, split_word_cons e es he]
            exact join_ne_nil rep _ _ (List.cons_ne_nil _ _)
          have e2 : trim ((c :: cs.takeWhile (fun x => !is_ws x))
                ++ (rep ++ collapse_runs rep (e :: es) false))
              = trimR ((c :: cs.takeWhile (fun x => !is_ws x))
                ++ (rep ++ collapse_runs rep (e :: es) false)) := by
            rw [List.cons_append]
            exact trim_head_nonws c _ hc2
          rw [e2, ← List.append_assoc, trimR_append_left _ _ hne, hR,
            join_cons_ne rep _ _
              (by rw [split_word_cons e es he]; exact List.cons_ne_nil _ _)]
termination_by l => l.length
decreasing_by
all_goals first
| (have h1 := drop_while_len is_ws cs
   simp only [List.length_cons]
   omega)
| (have h1 := drop_while_len is_ws ds
   rw [hu] at h1
   have h2 := drop_while_len (fun x => !is_ws x) cs
   rw [hdr] at h2
   simp only [List.length_cons] at h1 h2 ⊢
   omega)

/-- Claim C2 (corrected): in the finalization step, when `clean_whitespace`
is on and `preserve_line_breaks` is off, EVERY maximal run of whitespace —
not only those spanning a line break — is replaced by exactly two newlines:
the result is the whitespace-separated words of the buffer joined by blank
lines.  Otherwise the buffer is left as emitted.  In both cases the result
is trimmed of leading and trailing whitespace. -/
theorem claim_C2_finalization (f : Formatter) :
    result f =
      if f.config.clean_whitespace && !f.config.cleaning_rules.preserve_line_breaks then
        join_sep "\n\n".data (split_whitespace
          ((if f.config.include_metadata then format_metadata f.metadata else [])
            ++ trim f.content))
      else
        trim ((if f.config.include_metadata then format_metadata f.metadata else [])
          ++ trim f.content) := by
  unfold result
  by_cases h : f.config.clean_whitespace && !f.config.cleaning_rules.preserve_line_breaks
  · rw [if_pos h, if_pos h]
    exact trim_collapse "\n\n".data (by decide) _
  · rw [if_neg h, if_neg h]

/-- Claim C2 counterexample: with cleaning on, the single space between two
words on one line — a whitespace run that spans no line break — is replaced
by a blank line, contradicting the claim that such whitespace is left as
emitted. -/
theorem claim_C2_counterexample :
    html_to_markdown cfg_cw (.document [.text "a b"]) = ("a\n\nb".data, true) ∧
      "a\n\nb".data ≠ "a b".data := by
  constructor
  · rfl
  · decide

/-! ### Table rendering: widths are the column maxima, content shape -/

theorem add_newline_content (g : Formatter) :
    (add_newline g).content = ensure_newline g.content := rfl

theorem push_str_content (g : Formatter) (s : List Char) :
    (push_str g s).content = g.content ++ s := rfl

theorem ne_nil_of_getLast (l : List Char) (x : Char) (h : l.getLast? = some x) :
    l ≠ [] := by
  intro he
  rw [he] at h
  exact Option.noConfusion h

theorem getLast?_append_flat {α : Type} (x : Char) (g : α → List Char) :
    ∀ (zs : List α) (a : List Char), a.getLast? = some x →
    (∀ z ∈ zs, (g z).getLast? = some x) →
    (a ++ zs.flatMap g).getLast? = some x
  | [], a, ha, _ => by simpa using ha
  | z :: zs, a, ha, hz => by
    have hne : g z ≠ [] := ne_nil_of_getLast _ x (hz z (List.mem_cons_self _ _))
    rw [List.flatMap_cons, ← List.append_assoc]
    exact getLast?_append_flat x g zs (a ++ g z)
      (by rw [List.getLast?_append_of_ne_nil _ hne]; exact hz z (List.mem_cons_self _ _))
      (fun z2 h2 => hz z2 (List.mem_cons_of_mem _ h2))

theorem cell_block_last (w : Nat) (c : List Char) :
    (cell_block w c).getLast? = some '|' := by
  unfold cell_block
  rw [show (' ' :: (c ++ List.replicate (w - c.length) ' ' ++ [' ', '|']))
      = (' ' :: (c ++ List.replicate (w - c.length) ' ')) ++ [' ', '|'] by simp,
    List.getLast?_append_of_ne_nil _ (by decide)]
  rfl

theorem dash_block_last (w : Nat) :
    (' ' :: (List.replicate w '-' ++ [' ', '|'])).getLast? = some '|' := by
  rw [show (' ' :: (List.replicate w '-' ++ [' ', '|']))
      = (' ' :: List.replicate w '-') ++ [' ', '|'] by simp,
    List.getLast?_append_of_ne_nil _ (by decide)]
  rfl

theorem table_line_last (ws : List Nat) (row : List (List Char)) :
    (table_line ws row).getLast? = some '\n' := by
  show (('|' :: (row.zip ws).flatMap (fun p => cell_block p.2 p.1)) ++ ['\n']).getLast? = _
  rw [List.getLast?_append_of_ne_nil _ (by decide)]
  rfl

theorem dash_line_last (ws : List Nat) :
    (dash_line ws).getLast? = some '\n' := by
  show (('|' :: ws.flatMap (fun w => ' ' :: (List.replicate w '-' ++ [' ', '|']))) ++ ['\n']).getLast? = _
  rw [List.getLast?_append_of_ne_nil _ (by decide)]
  rfl

theorem row_cells_content : ∀ (row : List (List Char)) (ws : List Nat) (f : Formatter),
    (row_cells f row ws).content
      = f.content ++ (row.zip ws).flatMap (fun p => cell_block p.2 p.1)
  | [], _, f => by simp [row_cells]
  | _ :: _, [], f => by simp [row_cells]
  | c :: cs, w :: ws, f => by
    show (row_cells { f with
        content := f.content ++ (' ' :: (c ++ List.replicate (w - c.length) ' ' ++ [' ', '|'])),
        ok := f.ok && decide (c.length ≤ w) } cs ws).content = _
    rw [row_cells_content cs ws]
    simp [cell_block, List.append_assoc]

theorem format_table_row_content (row : List (List Char)) (ws : List Nat) (f : Formatter) :
    (format_table_row f row ws).content = f.content ++ table_line ws row := by
  unfold format_table_row add_newline
  rw [show (row_cells (push_str f ['|']) row ws).content
      = (push_str f ['|']).content ++ (row.zip ws).flatMap (fun p => cell_block p.2 p.1)
    from row_cells_content row ws _]
  have hlast : ((push_str f ['|']).content
      ++ (row.zip ws).flatMap (fun p => cell_block p.2 p.1)).getLast? = some '|' := by
    refine getLast?_append_flat '|' _ _ _ ?_ (fun z _ => cell_block_last z.2 z.1)
    show (f.content ++ ['|']).getLast? = some '|'
    rw [List.getLast?_append_of_ne_nil _ (by decide)]
    rfl
  unfold ensure_newline
  rw [if_neg (by rw [hlast]; decide)]
  simp [push_str, table_line, List.append_assoc]

theorem sep_foldl_content : ∀ (ws : List Nat) (g : Formatter),
    (ws.foldl (fun g w => push_str g (' ' :: (List.replicate w '-' ++ [' ', '|']))) g).content
      = g.content ++ ws.flatMap (fun w => ' ' :: (List.replicate w '-' ++ [' ', '|']))
  | [], g => by simp
  | w :: ws, g => by
    rw [List.foldl_cons, sep_foldl_content ws, List.flatMap_cons]
    simp [push_str, List.append_assoc]

theorem rows_foldl_content : ∀ (rows : List (List (List Char))) (ws : List Nat) (g : Formatter),
    (rows.foldl (fun g r => format_table_row g r ws) g).content
      = g.content ++ rows.flatMap (table_line ws)
  | [], _, g => by simp
  | r :: rows, ws, g => by
    rw [List.foldl_cons, rows_foldl_content rows ws, format_table_row_content, List.flatMap_cons]
    simp [List.append_assoc]

theorem dash_stage (f1 : Formatter) (ws : List Nat) :
    (add_newline (ws.foldl (fun g w => push_str g (' ' :: (List.replicate w '-' ++ [' ', '|'])))
      (push_str f1 ['|']))).content = f1.content ++ dash_line ws := by
  rw [add_newline_content, sep_foldl_content, push_str_content]
  have hl : (f1.content ++ ['|']
      ++ ws.flatMap (fun w => ' ' :: (List.replicate w '-' ++ [' ', '|']))).getLast?
      = some '|' := by
    refine getLast?_append_flat '|' _ ws _ ?_ (fun w _ => dash_block_last w)
    rw [List.getLast?_append_of_ne_nil _ (by decide)]
    rfl
  unfold ensure_newline
  rw [if_neg (by rw [hl]; decide)]
  simp [dash_line, List.append_assoc]

theorem rows_stage (f2 : Formatter) (ws : List Nat) (rows : List (List (List Char)))
    (h2 : f2.content.getLast? = some '\n') :
    (add_newline (rows.foldl (fun g r => format_table_row g r ws) f2)).content
      = f2.content ++ rows.flatMap (table_line ws) := by
  rw [add_newline_content, rows_foldl_content]
  exact ensure_newline_of_nl _
    (getLast?_append_flat '\n' _ rows _ h2 (fun r _ => table_line_last ws r))

theorem length_update_row : ∀ (ws : List Nat) (r : List (List Char)),
    (update_row ws r).length = ws.length
  | ws, [] => by simp [update_row]
  | [], _ :: _ => rfl
  | w :: ws, c :: cells => by simp [update_row, length_update_row ws cells]

theorem getElem?_update_row : ∀ (ws : List Nat) (r : List (List Char)) (i : Nat),
    (update_row ws r)[i]? =
      match ws[i]?, r[i]? with
      | some w, some c => some (Nat.max w c.length)
      | some w, none => some w
      | none, _ => none
  | ws, [], i => by
    cases hw : ws[i]? <;> simp [update_row, hw]
  | [], _ :: _, i => by
    simp [update_row]
  | w :: ws, c :: cells, i => by
    cases i with
    | zero => simp [update_row]
    | succ j =>
      show (Nat.max w c.length :: update_row ws cells)[j + 1]? = _
      rw [List.getElem?_cons_succ, getElem?_update_row ws cells j,
        show (w :: ws)[j + 1]? = ws[j]? from List.getElem?_cons_succ,
        show (c :: cells)[j + 1]? = cells[j]? from List.getElem?_cons_succ]

theorem getElem?_foldl_update : ∀ (rows : List (List (List Char))) (ws : List Nat) (i : Nat),
    (rows.foldl update_row ws)[i]? =
      match ws[i]? with
      | none => none
      | some w => some (((rows.filterMap (fun r => r[i]?)).map List.length).foldl Nat.max w)
  | [], ws, i => by
    cases hw : ws[i]? <;> simp [hw]
  | r :: rows, ws, i => by
    rw [List.foldl_cons, getElem?_foldl_update rows (update_row ws r) i,
      getElem?_update_row ws r i]
    cases hw : ws[i]? with
    | none => cases hr : r[i]? <;> simp [List.filterMap_cons, hr]
    | some w => cases hr : r[i]? <;> simp [List.filterMap_cons, hr]

theorem widths_eq (rows : List (List (List Char))) (n : Nat) :
    compute_col_widths rows n = (List.range n).map (col_max rows) := by
  apply List.ext_getElem?
  intro i
  rw [show compute_col_widths rows n = rows.foldl update_row (List.replicate n 0) from rfl,
    getElem?_foldl_update rows (List.replicate n 0) i, List.getElem?_map,
    List.getElem?_replicate]
  by_cases hi : i < n
  · rw [if_pos hi, List.getElem?_range hi]
    rfl
  · rw [if_neg hi,
      show (List.range n)[i]? = none from
        List.getElem?_eq_none (by simpa using Nat.le_of_not_lt hi)]
    rfl

theorem format_table_content (f : Formatter) (r0 : List (List Char))
    (rest : List (List (List Char))) (h : f.table_rows = r0 :: rest) :
    (format_table f).content
      = (add_double_newline f).content
        ++ table_line (compute_col_widths (r0 :: rest) r0.length) r0
        ++ dash_line (compute_col_widths (r0 :: rest) r0.length)
        ++ rest.flatMap (table_line (compute_col_widths (r0 :: rest) r0.length)) := by
  unfold format_table
  split
  · next heq => rw [heq] at h; exact absurd h (by simp)
  · next r1 rest1 heq =>
    injection h.symm.trans heq with e1 e2
    subst e1
    subst e2
    dsimp only
    have h2 : (add_newline (List.foldl
        (fun g w => push_str g (' ' :: (List.replicate w '-' ++ [' ', '|'])))
        (push_str (format_table_row (add_double_newline f) r0
          (compute_col_widths (r0 :: rest) r0.length)) ['|'])
        (compute_col_widths (r0 :: rest) r0.length))).content.getLast? = some '\n' := by
      rw [dash_stage,
        List.getLast?_append_of_ne_nil _ (ne_nil_of_getLast _ '\n' (dash_line_last _))]
      exact dash_line_last _
    rw [rows_stage _ _ _ h2, dash_stage, format_table_row_content]

/-- Claim C7: for a table whose accumulated row list is non-empty, the
rendered output appended by `format_table` is exactly the claim's
pipe-delimited table: column count the length of the first row, column
widths the per-column maxima of observed cell lengths, a dash separator row
sized to the column widths after the first row, cells right-padded with
spaces, and cells beyond the first row's column count dropped. -/
theorem claim_C7_table_rendering (f : Formatter) (r0 : List (List Char))
    (rest : List (List (List Char))) (h : f.table_rows = r0 :: rest) :
    (format_table f).content = (add_double_newline f).content ++ spec_table (r0 :: rest) := by
  rw [format_table_content f r0 rest h, widths_eq (r0 :: rest) r0.length]
  simp [spec_table, List.append_assoc]

theorem claim_C7_witness :
    ({ Formatter.new cfg_default with
        table_rows := [[['a'], ['b', 'b']], [['c', 'c', 'c'], ['d']]] } : Formatter).table_rows
      = [[['a'], ['b', 'b']], [['c', 'c', 'c'], ['d']]] ∧
    compute_col_widths [[['a'], ['b', 'b']], [['c', 'c', 'c'], ['d']]] 2 = [3, 2] ∧
    (format_table { Formatter.new cfg_default with
        table_rows := [[['a'], ['b', 'b']], [['c', 'c', 'c'], ['d']]] }).content
      = "\n| a   | bb |\n| --- | -- |\n| ccc | d  |\n".data := by
  refine ⟨rfl, by decide, ?_⟩
  rw [claim_C7_table_rendering _ [['a'], ['b', 'b']] [[['c', 'c', 'c'], ['d']]] rfl]
  decide

theorem ol_replicate_content (f : Formatter) (n : Nat)
    (hc : f.content = []) (hi : f.indent_level = 0) :
    (process_node f (.element "ol" [] (List.replicate n (.element "li" [] [])))).content
      = ensure_newline (wrap_marks 3 1 n) := by
  rw [process_node_ol, items_replicate n (list_start f (.ordered 1) 3) 1]
  show ensure_newline ((list_start f (.ordered 1) 3).content
      ++ wrap_marks (list_start f (.ordered 1) 3).indent_level 1 n) = _
  rw [show (list_start f (.ordered 1) 3).content = f.content from rfl, hc,
    show (list_start f (.ordered 1) 3).indent_level = f.indent_level + 3 from rfl, hi,
    Nat.zero_add, List.nil_append]

/-- Claim C9 counterexample: an `ol` with 256 direct empty `li` children.
The emitted text ends with the line `   0. ` — the `u8` counter wraps, so
the 256th item is numbered `0` — while the unamended claim (a counter
incremented once per item without bound, as `plain_marks` renders it)
predicts a final line `   256. `. -/
theorem claim_C9_counterexample :
    (∃ pre, (process_node (Formatter.new cfg_default)
        (.element "ol" [] (List.replicate 256 (.element "li" [] [])))).content
      = pre ++ "   0. \n".data) ∧
    (∃ pre, plain_marks 3 1 256 = pre ++ "   256. \n".data) ∧
    ("   0. \n".data : List Char) ≠ "   256. \n".data := by
  refine ⟨?_, ?_, by decide⟩
  · obtain ⟨pre, hp⟩ := wrap_marks_decomp 256 3 1 (by omega) (by omega)
    refine ⟨pre, ?_⟩
    rw [ol_replicate_content (Formatter.new cfg_default) 256 rfl rfl,
      ensure_newline_of_nl _ (wrap_marks_last 256 3 1 (by omega)), hp]
    congr 1
  · obtain ⟨pre, hp⟩ := plain_marks_decomp 256 3 1 (by omega)
    refine ⟨pre, ?_⟩
    rw [hp]
    congr 1
